import Mathlib

/-!
Verification of `push.py`: a utility that merges the contents of a local
folder into a git repository checkout and publishes the result.

The development shallowly embeds:
* the filesystem trees manipulated by the copy loop (`os.listdir`,
  `shutil.copytree(…, dirs_exist_ok=True)`, `shutil.copy2`),
* the git-visible state of a checkout (current branch, local branches,
  refs, HEAD tree, working tree, index, commit list) and the two public
  operations `clone_and_push_folder_fixed` and `push_to_existing_repo`
  as total functions from an abstract environment (which fixes the
  outcome of the external git calls: clone, checkout, push) to a result
  carrying the event trace of printed steps,
* `safe_rmtree` / `handle_remove_readonly` over trees whose files carry
  a read-only flag and a "stubborn" flag (deletion still fails after
  the handler cleared the read-only attribute).
-/

set_option autoImplicit false

namespace PushSpec

/-- A filesystem tree: a file with string content, or a directory given as
an association list from entry names to subtrees (first binding wins on
lookup, mirroring a real directory where names are unique). -/
inductive FTree where
  | file : String → FTree
  | dir : List (String × FTree) → FTree

mutual
/-- Decidable equality of trees. -/
def decEqT : (a b : FTree) → Decidable (a = b)
  | .file c, .file c' =>
    if h : c = c' then .isTrue (by rw [h]) else .isFalse (by simp [h])
  | .file _, .dir _ => .isFalse (by simp)
  | .dir _, .file _ => .isFalse (by simp)
  | .dir cs, .dir cs' =>
    match decEqL cs cs' with
    | .isTrue h => .isTrue (by rw [h])
    | .isFalse h => .isFalse (by simp [h])

/-- Decidable equality of directory listings. -/
def decEqL : (a b : List (String × FTree)) → Decidable (a = b)
  | [], [] => .isTrue rfl
  | [], _ :: _ => .isFalse (by simp)
  | _ :: _, [] => .isFalse (by simp)
  | (n, t) :: r, (n', t') :: r' =>
    if hn : n = n' then
      match decEqT t t' with
      | .isTrue ht =>
        match decEqL r r' with
        | .isTrue hr => .isTrue (by rw [hn, ht, hr])
        | .isFalse hr => .isFalse (by simp [hr])
      | .isFalse ht => .isFalse (by simp [ht])
    else .isFalse (by simp [hn])
end

instance : DecidableEq FTree := decEqT

/-- Lookup of a directory entry by name. -/
def assoc : List (String × FTree) → String → Option FTree
  | [], _ => none
  | (m, v) :: rest, n => if m = n then some v else assoc rest n

/-- Write a directory entry: replace the first binding of the name in
place, or append a fresh binding at the end. -/
def setA : List (String × FTree) → String → FTree → List (String × FTree)
  | [], n, v => [(n, v)]
  | (m, w) :: rest, n, v =>
      if m = n then (m, v) :: rest else (m, w) :: setA rest n v

/-- Does the listing contain the given entry name? -/
def keysHas (s : List (String × FTree)) (n : String) : Bool :=
  s.any (fun p => p.1 = n)

/-- `shutil.copy2 src dst` when `dst` names an entry of directory `d`:
if that entry is a directory, the file is copied *into* it under its own
base name; otherwise the file overwrites (or creates) the entry. -/
def copy2At (d : List (String × FTree)) (n : String) (c : String) :
    List (String × FTree) :=
  match assoc d n with
  | some (.dir dcs) => setA d n (.dir (setA dcs n (.file c)))
  | _ => setA d n (.file c)

mutual
/-- Effect on directory `d` of copying one source entry `(n, t)` to it,
as the copy loop of `push.py` does: a file goes through `copy2At`; a
directory is merged with `shutil.copytree(…, dirs_exist_ok=True)` when a
same-named directory exists, copied fresh when the name is absent, and
skipped (an error is raised) when a same-named file is in the way. -/
def mergeItem (d : List (String × FTree)) (n : String) (t : FTree) :
    List (String × FTree) :=
  match t with
  | .file c => copy2At d n c
  | .dir scs =>
    match assoc d n with
    | some (.dir dcs) => setA d n (.dir (mergeL dcs scs))
    | some (.file _) => d
    | none => setA d n (.dir (mergeL [] scs))

/-- Copy every source entry into directory `d`, in listing order. -/
def mergeL (d : List (String × FTree)) (s : List (String × FTree)) :
    List (String × FTree) :=
  match s with
  | [] => d
  | (n, t) :: rest => mergeL (mergeItem d n t) rest
end

/-- The value the copy of one entry leaves at its name, as a function of
the previous value at that name (`mergeItem d n t = setA d n (newVal
(assoc d n) n t)`, proved below). -/
def newVal (v : Option FTree) (n : String) (t : FTree) : FTree :=
  match v, t with
  | some (.dir dcs), .file c => .dir (setA dcs n (.file c))
  | some (.file _), .file c => .file c
  | none, .file c => .file c
  | some (.dir dcs), .dir scs => .dir (mergeL dcs scs)
  | some (.file c), .dir _ => .file c
  | none, .dir scs => .dir (mergeL [] scs)

mutual
/-- Conflict-freedom of copying one entry: copying a source directory
over an existing destination file raises (`os.makedirs` on a file), and
inside a directory merge the same recursively; everything else succeeds
(in particular `copy2At` never raises). -/
def cfItem (d : List (String × FTree)) (n : String) (t : FTree) : Bool :=
  match t with
  | .file _ => true
  | .dir scs =>
    match assoc d n with
    | some (.dir dcs) => cfL dcs scs
    | some (.file _) => false
    | none => cfL [] scs

/-- Conflict-freedom of the whole copy loop, checked against the
destination as it evolves. -/
def cfL (d : List (String × FTree)) (s : List (String × FTree)) : Bool :=
  match s with
  | [] => true
  | (n, t) :: rest => cfItem d n t && cfL (mergeItem d n t) rest
end

mutual
/-- No source file is copied onto an existing same-named destination
directory anywhere in the overlay (such a copy silently nests the file
inside the directory instead of replacing it). -/
def ncItem (d : List (String × FTree)) (n : String) (t : FTree) : Bool :=
  match t with
  | .file _ =>
    match assoc d n with
    | some (.dir _) => false
    | _ => true
  | .dir scs =>
    match assoc d n with
    | some (.dir dcs) => ncL dcs scs
    | some (.file _) => false
    | none => ncL [] scs

/-- `ncItem` over a whole listing, against the evolving destination. -/
def ncL (d : List (String × FTree)) (s : List (String × FTree)) : Bool :=
  match s with
  | [] => true
  | (n, t) :: rest => ncItem d n t && ncL (mergeItem d n t) rest
end

/-- `cfItem` as a function of the value currently bound at the entry's
name (`cfItem d n t = cfVal (assoc d n) t`, proved below). -/
def cfVal (v : Option FTree) (t : FTree) : Bool :=
  match t with
  | .file _ => true
  | .dir scs =>
    match v with
    | some (.dir dcs) => cfL dcs scs
    | some (.file _) => false
    | none => cfL [] scs

/-- `ncItem` as a function of the value currently bound at the entry's
name (`ncItem d n t = ncVal (assoc d n) t`, proved below). -/
def ncVal (v : Option FTree) (t : FTree) : Bool :=
  match t with
  | .file _ =>
    match v with
    | some (.dir _) => false
    | _ => true
  | .dir scs =>
    match v with
    | some (.dir dcs) => ncL dcs scs
    | some (.file _) => false
    | none => ncL [] scs

mutual
/-- Source-to-destination containment: a file must reappear with equal
content, a directory's entries must all reappear (possibly among
additional destination-only entries). -/
def leFT : FTree → FTree → Bool
  | .file c, .file c' => c = c'
  | .file _, .dir _ => false
  | .dir _, .file _ => false
  | .dir scs, .dir dcs => leL scs dcs

/-- Every entry of the first listing occurs in the second with a
containing value. -/
def leL : List (String × FTree) → List (String × FTree) → Bool
  | [], _ => true
  | (n, t) :: rest, dcs =>
    (match assoc dcs n with
     | some e => leFT t e
     | none => false) && leL rest dcs
end

mutual
/-- Well-formedness of a tree: directory listings bind each name at most
once, at every level (true of any listing produced by `os.listdir`). -/
def wfT : FTree → Bool
  | .file _ => true
  | .dir cs => wfL cs

/-- Well-formedness of a listing. -/
def wfL : List (String × FTree) → Bool
  | [] => true
  | (n, t) :: rest => !keysHas rest n && wfT t && wfL rest
end

/-! ## Git model

The two public operations are embedded as total functions from an
abstract environment — which fixes the outcome of every external call
(clone, checkout, push) and the initial repository content — to a result
carrying the trace of printed steps as events, the repository state, and
whether an exception escaped the body into the top-level handlers. -/

/-- One printed step of either operation. -/
inductive Ev where
  | removedExisting | cloned | cloneFailed
  | switchedLocal | createdTracking | usingCurrent | branchWarn
  | copied | copyFailed
  | staged | committed | pushed | pushFailed | noChanges
  | openedRepo | openFailed
  | gitErrorCaught | errorCaught
  | cleanupStart | cleanupDone
deriving DecidableEq, Repr

/-- Kind of exception escaping the body of an operation:
`git.exc.GitCommandError` or any other `Exception`. -/
inductive Err where
  | gitCommand
  | generic
deriving DecidableEq, Repr

/-- Git-visible state of a checkout. The trees are those of the branch
the checkout is on: `headTree` is the last commit's tree, `workTree` the
working directory, `indexTree` the staging area; `commits` is the list
of commit messages, newest first. -/
structure Repo where
  current : String
  branches : List String
  refs : List String
  headTree : List (String × FTree)
  workTree : List (String × FTree)
  indexTree : List (String × FTree)
  commits : List String
deriving DecidableEq

/-- Branch selection of `clone_and_push_folder_fixed` (lines 55–66):
switch to an existing local branch, else create a local branch from the
`origin/<name>` ref and switch to it, else stay on the current branch;
an exception from `checkout` is caught and printed as a warning. -/
def selectBranch (branch : String) (checkoutRaises : Bool) (r : Repo) :
    Repo × Ev :=
  if r.branches.contains branch then
    if checkoutRaises then (r, .branchWarn)
    else ({ r with current := branch }, .switchedLocal)
  else if r.refs.contains ("origin/" ++ branch) then
    if checkoutRaises then (r, .branchWarn)
    else ({ r with current := branch, branches := branch :: r.branches },
          .createdTracking)
  else (r, .usingCurrent)

/-- Environment of one `clone_and_push_folder_fixed` run: the remote
branch content, the source folder listing, and the outcome of each
external call. -/
structure CloneEnv where
  remoteTree : List (String × FTree)
  remoteCommits : List String
  source : List (String × FTree)
  cloneDirPreexists : Bool
  cloneOk : Bool
  clonedCurrent : String
  clonedBranches : List String
  clonedRefs : List String
  checkoutRaises : Bool
  pushOk : Bool
deriving DecidableEq

/-- Outcome of the `try` body of `clone_and_push_folder_fixed`. -/
structure CloneOutcome where
  events : List Ev
  repo : Option Repo
  remoteTree : List (String × FTree)
  remoteCommits : List String
  exn : Option Err
deriving DecidableEq

/-- The `try` body of `clone_and_push_folder_fixed` (lines 37–108):
remove any pre-existing clone directory, clone, select the branch, copy
the source folder's entries into the checkout root, stage everything,
and if the index differs from HEAD commit and push (a push failure is
caught inside and only printed). `repo` is the checkout state when the
body ends or raises. -/
def cloneBody (env : CloneEnv) (msg branch : String) : CloneOutcome :=
  let pre : List Ev := if env.cloneDirPreexists then [.removedExisting] else []
  if env.cloneOk = false then
    { events := pre ++ [.cloneFailed], repo := none,
      remoteTree := env.remoteTree, remoteCommits := env.remoteCommits,
      exn := some .gitCommand }
  else
    let r0 : Repo :=
      { current := env.clonedCurrent, branches := env.clonedBranches,
        refs := env.clonedRefs, headTree := env.remoteTree,
        workTree := env.remoteTree, indexTree := env.remoteTree,
        commits := env.remoteCommits }
    let sel := selectBranch branch env.checkoutRaises r0
    let r1 := sel.1
    if cfL r1.workTree env.source = false then
      { events := pre ++ [.cloned, sel.2, .copyFailed], repo := some r1,
        remoteTree := env.remoteTree, remoteCommits := env.remoteCommits,
        exn := some .generic }
    else
      let merged := mergeL r1.workTree env.source
      let r2 := { r1 with workTree := merged, indexTree := merged }
      if r2.indexTree = r2.headTree then
        { events := pre ++ [.cloned, sel.2, .copied, .staged, .noChanges],
          repo := some r2, remoteTree := env.remoteTree,
          remoteCommits := env.remoteCommits, exn := none }
      else
        let r3 := { r2 with headTree := r2.indexTree,
                            commits := msg :: r2.commits }
        if env.pushOk then
          { events := pre ++ [.cloned, sel.2, .copied, .staged,
                              .committed, .pushed],
            repo := some r3, remoteTree := r3.headTree,
            remoteCommits := r3.commits, exn := none }
        else
          { events := pre ++ [.cloned, sel.2, .copied, .staged,
                              .committed, .pushFailed],
            repo := some r3, remoteTree := env.remoteTree,
            remoteCommits := env.remoteCommits, exn := none }

/-- Result of a whole `clone_and_push_folder_fixed` run.
`repoAtEnd` is the checkout state right before the `finally` cleanup. -/
structure CloneResult where
  events : List Ev
  repoAtEnd : Option Repo
  remoteTree : List (String × FTree)
  remoteCommits : List String
  exnEscaped : Bool
deriving DecidableEq

/-- `clone_and_push_folder_fixed` (lines 26–118): the body wrapped in
`except git.exc.GitCommandError` / `except Exception` handlers that only
print, and a `finally` block that always runs `safe_rmtree` on the
clone directory. -/
def clone_and_push_folder_fixed (env : CloneEnv) (msg branch : String) :
    CloneResult :=
  let b := cloneBody env msg branch
  let caught : List Ev :=
    match b.exn with
    | some .gitCommand => [.gitErrorCaught]
    | some .generic => [.errorCaught]
    | none => []
  { events := b.events ++ caught ++ [.cleanupStart, .cleanupDone],
    repoAtEnd := b.repo,
    remoteTree := b.remoteTree, remoteCommits := b.remoteCommits,
    exnEscaped := false }

/-- Environment of one `push_to_existing_repo` run. `headTree` and
`workTree` are the caller-supplied checkout's commit tree and working
directory. -/
structure ExistEnv where
  repoOk : Bool
  current : String
  branches : List String
  refs : List String
  headTree : List (String × FTree)
  workTree : List (String × FTree)
  commits : List String
  checkoutRaises : Bool
  source : List (String × FTree)
  pushOk : Bool
deriving DecidableEq

/-- Outcome of the `try` body of `push_to_existing_repo`. -/
structure ExistOutcome where
  events : List Ev
  repo : Option Repo
  exn : Option Err
deriving DecidableEq

/-- The `try` body of `push_to_existing_repo` (lines 125–169): open the
repository, switch to the branch only when a local branch of that name
exists (there is no remote-tracking fallback in this code path), copy
the source folder's entries into the repository root, stage everything,
and if the index differs from HEAD commit and push; here the push is
*not* wrapped in its own handler, so a push failure raises out of the
body. -/
def existBody (env : ExistEnv) (msg branch : String) : ExistOutcome :=
  if env.repoOk = false then
    { events := [.openFailed], repo := none, exn := some .generic }
  else
    let r0 : Repo :=
      { current := env.current, branches := env.branches, refs := env.refs,
        headTree := env.headTree, workTree := env.workTree,
        indexTree := env.headTree, commits := env.commits }
    if r0.branches.contains branch && env.checkoutRaises then
      { events := [.openedRepo], repo := some r0, exn := some .gitCommand }
    else
      let bev : List Ev :=
        if r0.branches.contains branch then [.switchedLocal] else []
      let r1 :=
        if r0.branches.contains branch then { r0 with current := branch }
        else r0
      if cfL r1.workTree env.source = false then
        { events := [.openedRepo] ++ bev ++ [.copyFailed],
          repo := some r1, exn := some .generic }
      else
        let merged := mergeL r1.workTree env.source
        let r2 := { r1 with workTree := merged, indexTree := merged }
        if r2.indexTree = r2.headTree then
          { events := [.openedRepo] ++ bev ++ [.copied, .staged, .noChanges],
            repo := some r2, exn := none }
        else
          let r3 := { r2 with headTree := r2.indexTree,
                              commits := msg :: r2.commits }
          if env.pushOk then
            { events := [.openedRepo] ++ bev ++ [.copied, .staged,
                                                 .committed, .pushed],
              repo := some r3, exn := none }
          else
            { events := [.openedRepo] ++ bev ++ [.copied, .staged,
                                                 .committed],
              repo := some r3, exn := some .gitCommand }

/-- Result of a whole `push_to_existing_repo` run. `repo` is the final
state of the caller-supplied checkout, which the operation never
deletes. -/
structure ExistResult where
  events : List Ev
  repo : Option Repo
  exnEscaped : Bool
deriving DecidableEq

/-- `push_to_existing_repo` (lines 121–172): the body wrapped in a
single `except Exception` handler that only prints; there is no cleanup
step in this operation. -/
def push_to_existing_repo (env : ExistEnv) (msg branch : String) :
    ExistResult :=
  let b := existBody env msg branch
  let caught : List Ev :=
    match b.exn with
    | some _ => [.errorCaught]
    | none => []
  { events := b.events ++ caught, repo := b.repo, exnEscaped := false }

/-! ## Cleanup model (`safe_rmtree`, `handle_remove_readonly`)

Files carry a read-only flag (the first deletion attempt fails) and a
"stubborn" flag (deletion fails even after the handler made the file
writable, in which case the exception propagates out of
`shutil.rmtree`). -/

/-- A tree as seen by `shutil.rmtree`. -/
inductive RTree where
  | rfile : Bool → Bool → RTree
  | rdir : List (String × RTree) → RTree

/-- `handle_remove_readonly` (lines 7–14): if the path still exists,
make it writable and retry the failed operation once (`true` = the
retry succeeded); if the path is gone, return silently. -/
def handle_remove_readonly (pathStillThere stubborn : Bool) : Bool :=
  if pathStillThere then !stubborn else true

mutual
/-- Does `shutil.rmtree` with `onerror=handle_remove_readonly` delete
this node without an exception propagating?  A writable file is
unlinked directly; a read-only file fails once and is retried by the
handler, which succeeds unless the file is stubborn; a directory is
deleted after all its children. -/
def rmNode : RTree → Bool
  | .rfile readonlyFlag stubborn =>
    if readonlyFlag then handle_remove_readonly true stubborn else true
  | .rdir cs => rmList cs

/-- `rmNode` over the children of a directory, in order; the first
propagating exception aborts the walk. -/
def rmList : List (String × RTree) → Bool
  | [] => true
  | (_, t) :: rest => rmNode t && rmList rest
end

mutual
/-- Is there a read-only *and* stubborn file anywhere in the tree? -/
def hasBad : RTree → Bool
  | .rfile readonlyFlag stubborn => readonlyFlag && stubborn
  | .rdir cs => hasBadL cs

/-- `hasBad` over a listing. -/
def hasBadL : List (String × RTree) → Bool
  | [] => false
  | (_, t) :: rest => hasBad t || hasBadL rest
end

/-- `shutil.rmtree path, onerror=handle_remove_readonly`: succeeds or
lets an exception escape. -/
def shutil_rmtree (t : RTree) : Except Unit Unit :=
  if rmNode t then Except.ok () else Except.error ()

/-- Observable outcome of `safe_rmtree`: does the directory still exist
afterwards, and was a warning printed? -/
structure RmResult where
  remainsAfter : Bool
  warned : Bool
deriving DecidableEq, Repr

/-- `safe_rmtree` (lines 16–24): if the path does not exist, do nothing;
otherwise run `shutil.rmtree` with the read-only handler and turn any
exception into a printed warning. It never raises to its caller. -/
def safe_rmtree : Option RTree → RmResult
  | none => { remainsAfter := false, warned := false }
  | some t =>
    match shutil_rmtree t with
    | .ok () => { remainsAfter := false, warned := false }
    | .error () => { remainsAfter := true, warned := true }

/-- Is the optional value an existing directory? -/
def isDirO : Option FTree → Bool
  | some (.dir _) => true
  | _ => false

/-- The environment of an immediately repeated run: same source folder
and call outcomes, but the remote now holds what the first run
published. -/
def secondRunEnv (env : CloneEnv) (msg branch : String) : CloneEnv :=
  { env with
    remoteTree := (clone_and_push_folder_fixed env msg branch).remoteTree,
    remoteCommits := (clone_and_push_folder_fixed env msg branch).remoteCommits }

/-! ### Concrete environments used as counterexamples and witnesses -/

/-- A remote whose root holds a directory `x`, pushed a source folder
whose root holds a *file* `x`. -/
def envC1cex : CloneEnv :=
  { remoteTree := [("x", .dir [])], remoteCommits := [],
    source := [("x", .file "a")], cloneDirPreexists := false,
    cloneOk := true, clonedCurrent := "main", clonedBranches := ["main"],
    clonedRefs := [], checkoutRaises := false, pushOk := true }

/-- A clash-free clone run: remote has `keep`, source adds file `doc`. -/
def envC1w : CloneEnv :=
  { remoteTree := [("keep", .file "k")], remoteCommits := [],
    source := [("doc", .file "d")], cloneDirPreexists := false,
    cloneOk := true, clonedCurrent := "main", clonedBranches := ["main"],
    clonedRefs := [], checkoutRaises := false, pushOk := true }

/-- A clash-free existing-repository run. -/
def envE1w : ExistEnv :=
  { repoOk := true, current := "main", branches := ["main"], refs := [],
    headTree := [("keep", .file "k")], workTree := [("keep", .file "k")],
    commits := [], checkoutRaises := false,
    source := [("doc", .file "d")], pushOk := true }

/-- An empty remote receiving one file: the first run commits. -/
def envC3w : CloneEnv :=
  { remoteTree := [], remoteCommits := [], source := [("a", .file "x")],
    cloneDirPreexists := false, cloneOk := true, clonedCurrent := "main",
    clonedBranches := ["main"], clonedRefs := [], checkoutRaises := false,
    pushOk := true }

/-- A clone run with changes to commit. -/
def envC4w : CloneEnv :=
  { remoteTree := [], remoteCommits := [], source := [("a", .file "x")],
    cloneDirPreexists := false, cloneOk := true, clonedCurrent := "main",
    clonedBranches := ["main"], clonedRefs := [], checkoutRaises := false,
    pushOk := true }

/-- An existing-repository run whose source is identical to the
checkout: no changes. -/
def envE4w : ExistEnv :=
  { repoOk := true, current := "main", branches := ["main"], refs := [],
    headTree := [("k", .file "v")], workTree := [("k", .file "v")],
    commits := ["old"], checkoutRaises := false,
    source := [("k", .file "v")], pushOk := true }

/-- A checkout on `dev` whose refs include `origin/main` but with no
local `main` branch. -/
def repoC5w : Repo :=
  { current := "dev", branches := ["dev"], refs := ["origin/main"],
    headTree := [], workTree := [], indexTree := [], commits := [] }

/-- An existing repository on `master` with a remote-tracking
`origin/main` but no local `main`. -/
def envC5cex : ExistEnv :=
  { repoOk := true, current := "master", branches := ["master"],
    refs := ["origin/main"], headTree := [], workTree := [], commits := [],
    checkoutRaises := false, source := [], pushOk := true }

/-- Same situation as `envC5cex`, used to witness the amended claim. -/
def envE5w : ExistEnv :=
  { repoOk := true, current := "master", branches := ["master"],
    refs := ["origin/main"], headTree := [], workTree := [], commits := [],
    checkoutRaises := false, source := [], pushOk := true }

/-- A clone run whose push fails. -/
def envC6w : CloneEnv :=
  { remoteTree := [], remoteCommits := [], source := [("a", .file "x")],
    cloneDirPreexists := false, cloneOk := true, clonedCurrent := "main",
    clonedBranches := ["main"], clonedRefs := [], checkoutRaises := false,
    pushOk := false }

/-- An existing-repository run whose push fails. -/
def envE6w : ExistEnv :=
  { repoOk := true, current := "main", branches := ["main"], refs := [],
    headTree := [], workTree := [], commits := [], checkoutRaises := false,
    source := [("a", .file "x")], pushOk := false }

/-! ## Basic association-list lemmas -/

theorem assoc_setA_self (d : List (String × FTree)) (n : String) (v : FTree) :
    assoc (setA d n v) n = some v := by
  induction d with
  | nil => simp [setA, assoc]
  | cons p rest ih =>
    obtain ⟨m, w⟩ := p
    by_cases h : m = n
    · simp [setA, assoc, h]
    · simp [setA, assoc, h, ih]

theorem assoc_setA_ne (d : List (String × FTree)) (m n : String) (v : FTree)
    (hne : m ≠ n) : assoc (setA d m v) n = assoc d n := by
  induction d with
  | nil => simp [setA, assoc, hne]
  | cons p rest ih =>
    obtain ⟨k, w⟩ := p
    by_cases h : k = m
    · subst h
      simp [setA, assoc, hne]
    · simp [setA, assoc, h, ih]

theorem setA_self (d : List (String × FTree)) (n : String) (v : FTree)
    (h : assoc d n = some v) : setA d n v = d := by
  induction d with
  | nil => simp [assoc] at h
  | cons p rest ih =>
    obtain ⟨k, w⟩ := p
    by_cases hk : k = n
    · subst hk
      simp [assoc] at h
      simp [setA, h]
    · simp [assoc, hk] at h
      simp [setA, hk, ih h]

theorem setA_setA (d : List (String × FTree)) (n : String) (v w : FTree) :
    setA (setA d n v) n w = setA d n w := by
  induction d with
  | nil => simp [setA]
  | cons p rest ih =>
    obtain ⟨k, u⟩ := p
    by_cases hk : k = n
    · simp [setA, hk]
    · simp [setA, hk, ih]

theorem keysHas_false_ne (s : List (String × FTree)) (n : String)
    (h : keysHas s n = false) :
    ∀ p, p ∈ s → p.1 ≠ n := by
  intro p hp
  simp [keysHas, List.any_eq_true] at h
  exact h p.1 p.2 hp

/-! ## The copy of one entry as a single write -/

theorem mergeItem_eq (d : List (String × FTree)) (n : String) (t : FTree) :
    mergeItem d n t = setA d n (newVal (assoc d n) n t) := by
  cases t with
  | file c =>
    cases hv : assoc d n with
    | none => simp [mergeItem, copy2At, newVal, hv]
    | some e =>
      cases e with
      | file c' => simp [mergeItem, copy2At, newVal, hv]
      | dir dcs => simp [mergeItem, copy2At, newVal, hv]
  | dir scs =>
    cases hv : assoc d n with
    | none => simp [mergeItem, newVal, hv]
    | some e =>
      cases e with
      | file c' =>
        simp [mergeItem, newVal, hv]
        exact (setA_self d n (.file c') hv).symm
      | dir dcs => simp [mergeItem, newVal, hv]

theorem assoc_mergeItem_ne (d : List (String × FTree)) (m : String)
    (t : FTree) (n : String) (hne : m ≠ n) :
    assoc (mergeItem d m t) n = assoc d n := by
  rw [mergeItem_eq]
  exact assoc_setA_ne d m n _ hne

theorem assoc_mergeItem_self (d : List (String × FTree)) (n : String)
    (t : FTree) :
    assoc (mergeItem d n t) n = some (newVal (assoc d n) n t) := by
  rw [mergeItem_eq]
  exact assoc_setA_self d n _

/-! ## The copy loop: frame and lookup lemmas -/

theorem assoc_mergeL_not_mem (s : List (String × FTree)) :
    ∀ d n, keysHas s n = false → assoc (mergeL d s) n = assoc d n := by
  induction s with
  | nil => intro d n _; simp [mergeL]
  | cons p rest ih =>
    intro d n h
    obtain ⟨m, t⟩ := p
    simp [keysHas] at h
    obtain ⟨hm, hrest⟩ := h
    have hr : keysHas rest n = false := by
      simp [keysHas, List.any_eq_true]
      intro a b hab
      exact hrest a b hab
    simp only [mergeL]
    rw [ih _ n hr, assoc_mergeItem_ne _ _ _ _ hm]

theorem assoc_mergeL_mem (s : List (String × FTree)) :
    ∀ d n t, wfL s = true → assoc s n = some t →
      assoc (mergeL d s) n = some (newVal (assoc d n) n t) := by
  induction s with
  | nil => intro d n t _ h; simp [assoc] at h
  | cons p rest ih =>
    intro d n t hwf h
    obtain ⟨m, u⟩ := p
    simp only [wfL, Bool.and_eq_true, Bool.not_eq_true'] at hwf
    obtain ⟨⟨hnk, _⟩, hwr⟩ := hwf
    by_cases hm : m = n
    · subst hm
      simp [assoc] at h
      subst h
      simp only [mergeL]
      rw [assoc_mergeL_not_mem rest _ m hnk, assoc_mergeItem_self]
    · simp [assoc, hm] at h
      simp only [mergeL]
      rw [ih _ n t hwr h, assoc_mergeItem_ne _ _ _ _ hm]

/-! ## Idempotence of the copy loop -/

mutual
theorem newVal_idem (v : Option FTree) (n : String) (t : FTree)
    (hw : wfT t = true) :
    newVal (some (newVal v n t)) n t = newVal v n t := by
  cases t with
  | file c =>
    cases v with
    | none => simp [newVal, setA]
    | some e =>
      cases e with
      | file c' => simp [newVal]
      | dir dcs => simp [newVal, setA_setA]
  | dir scs =>
    simp only [wfT] at hw
    cases v with
    | none => simp [newVal, mergeL_idem [] scs hw]
    | some e =>
      cases e with
      | file c' => simp [newVal]
      | dir dcs => simp [newVal, mergeL_idem dcs scs hw]

theorem mergeL_idem (d s : List (String × FTree)) (hw : wfL s = true) :
    mergeL (mergeL d s) s = mergeL d s := by
  match s with
  | [] => rfl
  | (n, t) :: rest =>
    simp only [wfL, Bool.and_eq_true, Bool.not_eq_true'] at hw
    obtain ⟨⟨hnk, hwt⟩, hwr⟩ := hw
    have hD : assoc (mergeL (mergeItem d n t) rest) n
        = some (newVal (assoc d n) n t) := by
      rw [assoc_mergeL_not_mem rest _ n hnk, assoc_mergeItem_self]
    have habs : mergeItem (mergeL (mergeItem d n t) rest) n t
        = mergeL (mergeItem d n t) rest := by
      rw [mergeItem_eq, hD, newVal_idem _ n t hwt]
      exact setA_self _ n _ hD
    simp only [mergeL]
    rw [habs]
    exact mergeL_idem (mergeItem d n t) rest hwr
end

/-- After one pass of the copy loop, re-copying any single entry of the
source is a no-op on the destination. -/
theorem mergeItem_absorb (d : List (String × FTree)) (n : String)
    (t : FTree) (rest : List (String × FTree)) (hwt : wfT t = true)
    (hnk : keysHas rest n = false) :
    mergeItem (mergeL (mergeItem d n t) rest) n t
      = mergeL (mergeItem d n t) rest := by
  have hD : assoc (mergeL (mergeItem d n t) rest) n
      = some (newVal (assoc d n) n t) := by
    rw [assoc_mergeL_not_mem rest _ n hnk, assoc_mergeItem_self]
  rw [mergeItem_eq, hD, newVal_idem _ n t hwt]
  exact setA_self _ n _ hD

/-! ## Conflict checks as functions of the looked-up value -/

theorem cfItem_eq (d : List (String × FTree)) (n : String) (t : FTree) :
    cfItem d n t = cfVal (assoc d n) t := by
  cases t with
  | file c => rfl
  | dir scs =>
    cases hv : assoc d n with
    | none => simp [cfItem, cfVal, hv]
    | some e => cases e <;> simp [cfItem, cfVal, hv]

theorem ncItem_eq (d : List (String × FTree)) (n : String) (t : FTree) :
    ncItem d n t = ncVal (assoc d n) t := by
  cases t with
  | file c =>
    cases hv : assoc d n with
    | none => simp [ncItem, ncVal, hv]
    | some e => cases e <;> simp [ncItem, ncVal, hv]
  | dir scs =>
    cases hv : assoc d n with
    | none => simp [ncItem, ncVal, hv]
    | some e => cases e <;> simp [ncItem, ncVal, hv]

/-! ## Conflict-freedom is preserved by a first pass of the loop -/

mutual
theorem cfVal_pres (v : Option FTree) (n : String) (t : FTree)
    (hw : wfT t = true) (h : cfVal v t = true) :
    cfVal (some (newVal v n t)) t = true := by
  cases t with
  | file c => rfl
  | dir scs =>
    simp only [wfT] at hw
    cases v with
    | none =>
      simp only [cfVal] at h
      simp only [newVal, cfVal]
      exact cfL_pres [] scs hw h
    | some e =>
      cases e with
      | file c' => simp [cfVal] at h
      | dir dcs =>
        simp only [cfVal] at h
        simp only [newVal, cfVal]
        exact cfL_pres dcs scs hw h

theorem cfL_pres (d s : List (String × FTree)) (hw : wfL s = true)
    (h : cfL d s = true) : cfL (mergeL d s) s = true := by
  match s with
  | [] => rfl
  | (n, t) :: rest =>
    simp only [wfL, Bool.and_eq_true, Bool.not_eq_true'] at hw
    obtain ⟨⟨hnk, hwt⟩, hwr⟩ := hw
    simp only [cfL, Bool.and_eq_true] at h
    obtain ⟨h1, h2⟩ := h
    have hD : assoc (mergeL (mergeItem d n t) rest) n
        = some (newVal (assoc d n) n t) := by
      rw [assoc_mergeL_not_mem rest _ n hnk, assoc_mergeItem_self]
    simp only [mergeL, cfL, Bool.and_eq_true]
    constructor
    · rw [cfItem_eq, hD]
      exact cfVal_pres (assoc d n) n t hwt (by rw [cfItem_eq] at h1; exact h1)
    · rw [mergeItem_absorb d n t rest hwt hnk]
      exact cfL_pres (mergeItem d n t) rest hwr h2
end

/-! ## Containment of the source in the merged destination -/

mutual
theorem leVal_newVal (v : Option FTree) (n : String) (t : FTree)
    (hw : wfT t = true) (hnc : ncVal v t = true) (hcf : cfVal v t = true) :
    leFT t (newVal v n t) = true := by
  cases t with
  | file c =>
    cases v with
    | none => simp [newVal, leFT]
    | some e =>
      cases e with
      | file c' => simp [newVal, leFT]
      | dir dcs => simp [ncVal] at hnc
  | dir scs =>
    simp only [wfT] at hw
    cases v with
    | none =>
      simp only [ncVal] at hnc
      simp only [cfVal] at hcf
      simp only [newVal, leFT]
      exact leL_mergeL [] scs hw hnc hcf
    | some e =>
      cases e with
      | file c' => simp [cfVal] at hcf
      | dir dcs =>
        simp only [ncVal] at hnc
        simp only [cfVal] at hcf
        simp only [newVal, leFT]
        exact leL_mergeL dcs scs hw hnc hcf

theorem leL_mergeL (d s : List (String × FTree)) (hw : wfL s = true)
    (hnc : ncL d s = true) (hcf : cfL d s = true) :
    leL s (mergeL d s) = true := by
  match s with
  | [] => rfl
  | (n, t) :: rest =>
    simp only [wfL, Bool.and_eq_true, Bool.not_eq_true'] at hw
    obtain ⟨⟨hnk, hwt⟩, hwr⟩ := hw
    simp only [ncL, Bool.and_eq_true] at hnc
    obtain ⟨hnc1, hnc2⟩ := hnc
    simp only [cfL, Bool.and_eq_true] at hcf
    obtain ⟨hcf1, hcf2⟩ := hcf
    have hD : assoc (mergeL (mergeItem d n t) rest) n
        = some (newVal (assoc d n) n t) := by
      rw [assoc_mergeL_not_mem rest _ n hnk, assoc_mergeItem_self]
    simp only [mergeL, leL, Bool.and_eq_true]
    constructor
    · rw [hD]
      exact leVal_newVal (assoc d n) n t hwt
        (by rw [ncItem_eq] at hnc1; exact hnc1)
        (by rw [cfItem_eq] at hcf1; exact hcf1)
    · exact leL_mergeL (mergeItem d n t) rest hwr hnc2 hcf2
end

/-! ## `rmtree` succeeds exactly when no file is read-only and stubborn -/

mutual
theorem rmNode_eq_not_hasBad (t : RTree) : rmNode t = !hasBad t := by
  cases t with
  | rfile ro st =>
    cases ro <;> cases st <;> rfl
  | rdir cs => simp only [rmNode, hasBad]; exact rmList_eq_not_hasBadL cs

theorem rmList_eq_not_hasBadL (cs : List (String × RTree)) :
    rmList cs = !hasBadL cs := by
  match cs with
  | [] => rfl
  | (n, t) :: rest =>
    simp only [rmList, hasBadL, rmNode_eq_not_hasBad t,
      rmList_eq_not_hasBadL rest, Bool.not_or]
end

/-! ## Branch selection only touches `current` and `branches` -/

theorem selectBranch_workTree (b : String) (c : Bool) (r : Repo) :
    (selectBranch b c r).1.workTree = r.workTree := by
  simp only [selectBranch]
  (repeat' split) <;> rfl

theorem selectBranch_headTree (b : String) (c : Bool) (r : Repo) :
    (selectBranch b c r).1.headTree = r.headTree := by
  simp only [selectBranch]
  (repeat' split) <;> rfl

theorem selectBranch_indexTree (b : String) (c : Bool) (r : Repo) :
    (selectBranch b c r).1.indexTree = r.indexTree := by
  simp only [selectBranch]
  (repeat' split) <;> rfl

theorem selectBranch_commits (b : String) (c : Bool) (r : Repo) :
    (selectBranch b c r).1.commits = r.commits := by
  simp only [selectBranch]
  (repeat' split) <;> rfl

theorem selectBranch_snd_cases (b : String) (c : Bool) (r : Repo) :
    (selectBranch b c r).2 = .switchedLocal
    ∨ (selectBranch b c r).2 = .createdTracking
    ∨ (selectBranch b c r).2 = .usingCurrent
    ∨ (selectBranch b c r).2 = .branchWarn := by
  simp only [selectBranch]
  (repeat' split) <;> simp

/-- C2: for the clone-and-push operation the cleanup step runs on every
exit path (every environment, hence success, push failure, clone
failure, copy failure alike), so the CLEANED_UP state is always
reached; the existing-repository operation never runs cleanup and never
deletes the caller-supplied checkout, which is still there (as a
repository handle) exactly when it could be opened. -/
theorem C2_cleanup_always (envC : CloneEnv) (envE : ExistEnv)
    (m b : String) :
    Ev.cleanupStart ∈ (clone_and_push_folder_fixed envC m b).events
    ∧ ((push_to_existing_repo envE m b).events.contains Ev.cleanupStart)
        = false
    ∧ (push_to_existing_repo envE m b).repo.isSome = envE.repoOk := by
  refine ⟨?_, ?_, ?_⟩
  · simp only [clone_and_push_folder_fixed]
    simp
  · simp only [push_to_existing_repo, existBody]
    (repeat' split) <;> simp_all
  · simp only [push_to_existing_repo, existBody]
    (repeat' split) <;> simp_all

/-- C8: both public operations catch every modelled failure at their top
level: no exception ever escapes to the caller, and an error event is
printed exactly when the body ended in an exception. -/
theorem C8_catch_all (envC : CloneEnv) (envE : ExistEnv) (m b : String) :
    (clone_and_push_folder_fixed envC m b).exnEscaped = false
    ∧ ((clone_and_push_folder_fixed envC m b).events.contains
          Ev.gitErrorCaught
        || (clone_and_push_folder_fixed envC m b).events.contains
          Ev.errorCaught)
        = (cloneBody envC m b).exn.isSome
    ∧ (push_to_existing_repo envE m b).exnEscaped = false
    ∧ ((push_to_existing_repo envE m b).events.contains Ev.errorCaught)
        = (existBody envE m b).exn.isSome := by
  refine ⟨rfl, ?_, rfl, ?_⟩
  · rcases selectBranch_snd_cases b envC.checkoutRaises
      { current := envC.clonedCurrent, branches := envC.clonedBranches,
        refs := envC.clonedRefs, headTree := envC.remoteTree,
        workTree := envC.remoteTree, indexTree := envC.remoteTree,
        commits := envC.remoteCommits } with h | h | h | h <;>
    · simp only [clone_and_push_folder_fixed, cloneBody]
      (repeat' split) <;> simp_all
  · simp only [push_to_existing_repo, existBody]
    (repeat' split) <;> simp_all

/-- C9: `safe_rmtree` never raises: `shutil.rmtree` with the read-only
handler fails exactly when some file is both read-only and stubborn
(still failing after the handler made it writable); in that case
`safe_rmtree` only prints a warning and leaves the remainder, otherwise
it removes the tree silently. A merely read-only file is deleted
thanks to the handler's chmod-and-retry. -/
theorem C9_safe_rmtree_swallows (t : RTree) :
    (shutil_rmtree t = Except.error () ↔ hasBad t = true)
    ∧ safe_rmtree (some t)
        = (if hasBad t then { remainsAfter := true, warned := true }
           else { remainsAfter := false, warned := false })
    ∧ rmNode (RTree.rfile true false) = true := by
  refine ⟨?_, ?_, rfl⟩ <;>
    cases hb : hasBad t <;>
      simp [shutil_rmtree, safe_rmtree, rmNode_eq_not_hasBad, hb]

/-- C10: `safe_rmtree` on a path that does not exist is a silent no-op:
nothing is deleted, no warning is printed, nothing is raised; and the
read-only handler itself returns silently when the failing path has
already disappeared. -/
theorem C10_nonexistent_noop :
    safe_rmtree none = { remainsAfter := false, warned := false }
    ∧ handle_remove_readonly false true = true
    ∧ handle_remove_readonly false false = true :=
  ⟨rfl, rfl, rfl⟩

/-- C7: the directory merge is a frame operation: an entry name absent
from the source is untouched at the destination; a source file
overwrites a same-named destination file (or fills an absent name); a
source directory meeting a same-named destination directory merges
recursively. -/
theorem C7_merge_preserves_dest_only (d s : List (String × FTree))
    (n : String) (hw : wfL s = true) :
    (keysHas s n = false → assoc (mergeL d s) n = assoc d n)
    ∧ (∀ c, assoc s n = some (.file c) → isDirO (assoc d n) = false →
        assoc (mergeL d s) n = some (.file c))
    ∧ (∀ scs dcs, assoc s n = some (.dir scs) →
        assoc d n = some (.dir dcs) →
        assoc (mergeL d s) n = some (.dir (mergeL dcs scs))) := by
  refine ⟨?_, ?_, ?_⟩
  · intro h
    exact assoc_mergeL_not_mem s d n h
  · intro c hs hd
    rw [assoc_mergeL_mem s d n _ hw hs]
    cases hv : assoc d n with
    | none => simp [newVal]
    | some e =>
      cases e with
      | file c' => simp [newVal]
      | dir dcs => rw [hv] at hd; simp [isDirO] at hd
  · intro scs dcs hs hd
    rw [assoc_mergeL_mem s d n _ hw hs, hd]
    simp [newVal]

/-- Witness for C7 at a concrete merge: destination-only entry `keep`
survives, source file `x` overwrites the destination file `x`, and the
directory `sub` present on both sides merges recursively. -/
theorem C7_witness :
    assoc (mergeL [("keep", .file "old"), ("x", .file "old"),
                   ("sub", .dir [("in", .file "i")])]
                  [("x", .file "new"), ("sub", .dir [("j", .file "jj")])])
        "keep" = assoc [("keep", .file "old"), ("x", .file "old"),
                        ("sub", .dir [("in", .file "i")])] "keep"
    ∧ assoc (mergeL [("keep", .file "old"), ("x", .file "old"),
                     ("sub", .dir [("in", .file "i")])]
                    [("x", .file "new"), ("sub", .dir [("j", .file "jj")])])
        "x" = some (.file "new")
    ∧ assoc (mergeL [("keep", .file "old"), ("x", .file "old"),
                     ("sub", .dir [("in", .file "i")])]
                    [("x", .file "new"), ("sub", .dir [("j", .file "jj")])])
        "sub" = some (.dir (mergeL [("in", .file "i")] [("j", .file "jj")])) := by
  refine ⟨?_, ?_, ?_⟩
  · exact (C7_merge_preserves_dest_only _ _ "keep" (by decide)).1 (by decide)
  · exact (C7_merge_preserves_dest_only _ _ "x" (by decide)).2.1 "new"
      (by decide) (by decide)
  · exact (C7_merge_preserves_dest_only _ _ "sub" (by decide)).2.2
      [("j", .file "jj")] [("in", .file "i")] (by decide) (by decide)

/-- C1 fails as stated: in `envC1cex` the source folder holds a top-level
*file* `x` while the remote already holds a top-level *directory* `x`.
The run succeeds (no exception escapes the body, a commit is pushed),
yet `shutil.copy2` copies the file *into* the existing directory, so at
the checkout root `x` is still a directory with the source file nested
one level below — the source entry is not reproduced at the root with
matching content. -/
theorem C1_counterexample :
    (cloneBody envC1cex "m" "main").exn = none
    ∧ envC1cex.source = [("x", FTree.file "a")]
    ∧ ((clone_and_push_folder_fixed envC1cex "m" "main").repoAtEnd.map
        (fun r => assoc r.workTree "x"))
        = some (some (.dir [("x", .file "a")]))
    ∧ ((clone_and_push_folder_fixed envC1cex "m" "main").repoAtEnd.map
        (fun r => leL envC1cex.source r.workTree)) = some false := by
  decide

/-- C1 amended: provided additionally that no source file shares its
name with an existing destination directory at any level (and the
source listing is well-formed), after a successful run every top-level
source entry is present at the checkout root with matching content —
files overwrite same-named destination files, directories merge, and
nothing is nested under an extra directory. -/
theorem C1_amended (envC : CloneEnv) (envE : ExistEnv) (m b : String)
    (h1 : envC.cloneOk = true)
    (h2 : wfL envC.source = true)
    (h3 : cfL envC.remoteTree envC.source = true)
    (h4 : ncL envC.remoteTree envC.source = true)
    (h5 : envE.repoOk = true)
    (h6 : (envE.branches.contains b && envE.checkoutRaises) = false)
    (h7 : wfL envE.source = true)
    (h8 : cfL envE.workTree envE.source = true)
    (h9 : ncL envE.workTree envE.source = true) :
    ((clone_and_push_folder_fixed envC m b).repoAtEnd.map
        (fun r => leL envC.source r.workTree)) = some true
    ∧ ((push_to_existing_repo envE m b).repo.map
        (fun r => leL envE.source r.workTree)) = some true := by
  have hle : leL envC.source (mergeL envC.remoteTree envC.source) = true :=
    leL_mergeL _ _ h2 h4 h3
  have hle2 : leL envE.source (mergeL envE.workTree envE.source) = true :=
    leL_mergeL _ _ h7 h9 h8
  constructor
  · simp only [clone_and_push_folder_fixed, cloneBody,
      selectBranch_workTree, selectBranch_headTree, h1, h3]
    (repeat' split) <;> simp_all
  · simp only [push_to_existing_repo, existBody, h5, h6]
    (repeat' split) <;> simp_all

/-- Witness for the amended C1 on clash-free runs of both operations. -/
theorem C1_witness :
    ((clone_and_push_folder_fixed envC1w "m" "main").repoAtEnd.map
        (fun r => leL envC1w.source r.workTree)) = some true
    ∧ ((push_to_existing_repo envE1w "m" "main").repo.map
        (fun r => leL envE1w.source r.workTree)) = some true :=
  C1_amended envC1w envE1w "m" "main" (by decide) (by decide) (by decide)
    (by decide) (by decide) (by decide) (by decide) (by decide) (by decide)

/-- C5 fails as stated: `push_to_existing_repo` has no remote-tracking
fallback. In `envC5cex` the checkout has `origin/main` among its refs
and no local `main`, yet the operation leaves the checkout on `master`
and creates no local `main` branch (the claim demands a tracking branch
be created and switched to in each operation). -/
theorem C5_counterexample :
    envC5cex.refs.contains ("origin/" ++ "main") = true
    ∧ envC5cex.branches.contains "main" = false
    ∧ ((push_to_existing_repo envC5cex "m" "main").repo.map
        (fun r => r.current)) = some "master"
    ∧ ((push_to_existing_repo envC5cex "m" "main").repo.map
        (fun r => r.branches.contains "main")) = some false := by
  decide

/-- C5 amended: the clone-and-push operation's branch selection is the
claimed three-way fallback (local branch / remote-tracking branch /
stay put, with checkout exceptions reduced to a printed warning), but
`push_to_existing_repo` only implements the first arm: when no local
branch of the name exists it stays on the current branch even if a
remote-tracking branch exists, creating nothing. -/
theorem C5_amended (b : String) (c : Bool) (r : Repo) (envE : ExistEnv)
    (m : String)
    (h5 : envE.repoOk = true)
    (h6 : envE.branches.contains b = false) :
    (r.branches.contains b = true → c = false →
      selectBranch b c r = ({ r with current := b }, Ev.switchedLocal))
    ∧ (r.branches.contains b = false →
        r.refs.contains ("origin/" ++ b) = true → c = false →
        selectBranch b c r
          = ({ r with current := b, branches := b :: r.branches },
             Ev.createdTracking))
    ∧ (r.branches.contains b = false →
        r.refs.contains ("origin/" ++ b) = false →
        selectBranch b c r = (r, Ev.usingCurrent))
    ∧ (c = true → r.branches.contains b = true →
        selectBranch b c r = (r, Ev.branchWarn))
    ∧ ((push_to_existing_repo envE m b).repo.map (fun rr => rr.current))
        = some envE.current
    ∧ ((push_to_existing_repo envE m b).repo.map (fun rr => rr.branches))
        = some envE.branches := by
  refine ⟨?_, ?_, ?_, ?_, ?_, ?_⟩
  · intro hb hc
    have hb' : b ∈ r.branches := by simpa using hb
    simp [selectBranch, hb', hc]
  · intro hb hr hc
    have hb' : b ∉ r.branches := by simpa using hb
    have hr' : ("origin/" ++ b) ∈ r.refs := by simpa using hr
    simp [selectBranch, hb', hr', hc]
  · intro hb hr
    have hb' : b ∉ r.branches := by simpa using hb
    have hr' : ("origin/" ++ b) ∉ r.refs := by simpa using hr
    simp [selectBranch, hb', hr']
  · intro hc hb
    have hb' : b ∈ r.branches := by simpa using hb
    simp [selectBranch, hb', hc]
  · simp only [push_to_existing_repo, existBody, h5, h6]
    (repeat' split) <;> simp_all
  · simp only [push_to_existing_repo, existBody, h5, h6]
    (repeat' split) <;> simp_all

/-- Witness for the amended C5: the clone path creates a tracking
branch from `origin/main`, while the existing-repository path in the
same situation stays on `master`. -/
theorem C5_witness :
    selectBranch "main" false repoC5w
      = ({ repoC5w with
            current := "main", branches := "main" :: repoC5w.branches },
         Ev.createdTracking)
    ∧ ((push_to_existing_repo envE5w "m" "main").repo.map
        (fun rr => rr.current)) = some envE5w.current := by
  have h := C5_amended "main" false repoC5w envE5w "m" (by decide) (by decide)
  exact ⟨h.2.1 (by decide) (by decide) rfl, h.2.2.2.2.1⟩

set_option maxHeartbeats 1600000 in
/-- C4: in either operation, once everything is staged a commit (with
the supplied message, prepended to the history) happens exactly when
the merged tree differs from HEAD; otherwise the "no changes" notice is
printed, nothing is committed and the body ends without an
exception. -/
theorem C4_commit_iff_changes (envC : CloneEnv) (envE : ExistEnv)
    (m b : String)
    (h1 : envC.cloneOk = true)
    (h2 : cfL envC.remoteTree envC.source = true)
    (h3 : envE.repoOk = true)
    (h4 : (envE.branches.contains b && envE.checkoutRaises) = false)
    (h5 : cfL envE.workTree envE.source = true) :
    (((clone_and_push_folder_fixed envC m b).events.contains Ev.committed)
        = true ↔ mergeL envC.remoteTree envC.source ≠ envC.remoteTree)
    ∧ (((clone_and_push_folder_fixed envC m b).events.contains Ev.noChanges)
        = true ↔ mergeL envC.remoteTree envC.source = envC.remoteTree)
    ∧ (mergeL envC.remoteTree envC.source = envC.remoteTree →
        ((clone_and_push_folder_fixed envC m b).repoAtEnd.map Repo.commits)
            = some envC.remoteCommits
        ∧ (cloneBody envC m b).exn = none)
    ∧ (mergeL envC.remoteTree envC.source ≠ envC.remoteTree →
        ((clone_and_push_folder_fixed envC m b).repoAtEnd.map Repo.commits)
            = some (m :: envC.remoteCommits))
    ∧ (((push_to_existing_repo envE m b).events.contains Ev.committed)
        = true ↔ mergeL envE.workTree envE.source ≠ envE.headTree)
    ∧ (((push_to_existing_repo envE m b).events.contains Ev.noChanges)
        = true ↔ mergeL envE.workTree envE.source = envE.headTree)
    ∧ (mergeL envE.workTree envE.source = envE.headTree →
        ((push_to_existing_repo envE m b).repo.map Repo.commits)
            = some envE.commits
        ∧ (existBody envE m b).exn = none)
    ∧ (mergeL envE.workTree envE.source ≠ envE.headTree →
        ((push_to_existing_repo envE m b).repo.map Repo.commits)
            = some (m :: envE.commits)) := by
  have hcl : (((clone_and_push_folder_fixed envC m b).events.contains
        Ev.committed)
        = true ↔ mergeL envC.remoteTree envC.source ≠ envC.remoteTree)
      ∧ (((clone_and_push_folder_fixed envC m b).events.contains
          Ev.noChanges)
        = true ↔ mergeL envC.remoteTree envC.source = envC.remoteTree)
      ∧ (mergeL envC.remoteTree envC.source = envC.remoteTree →
          ((clone_and_push_folder_fixed envC m b).repoAtEnd.map
            Repo.commits) = some envC.remoteCommits
          ∧ (cloneBody envC m b).exn = none)
      ∧ (mergeL envC.remoteTree envC.source ≠ envC.remoteTree →
          ((clone_and_push_folder_fixed envC m b).repoAtEnd.map
            Repo.commits) = some (m :: envC.remoteCommits)) := by
    rcases selectBranch_snd_cases b envC.checkoutRaises
        { current := envC.clonedCurrent, branches := envC.clonedBranches,
          refs := envC.clonedRefs, headTree := envC.remoteTree,
          workTree := envC.remoteTree, indexTree := envC.remoteTree,
          commits := envC.remoteCommits } with hs | hs | hs | hs <;>
    · refine ⟨?_, ?_, ?_, ?_⟩ <;>
      · simp only [clone_and_push_folder_fixed, cloneBody,
          selectBranch_workTree, selectBranch_headTree, h1, h2]
        (repeat' split) <;>
          simp_all [selectBranch_workTree, selectBranch_headTree,
            selectBranch_indexTree, selectBranch_commits]
  have hex : (((push_to_existing_repo envE m b).events.contains
        Ev.committed)
        = true ↔ mergeL envE.workTree envE.source ≠ envE.headTree)
      ∧ (((push_to_existing_repo envE m b).events.contains Ev.noChanges)
        = true ↔ mergeL envE.workTree envE.source = envE.headTree)
      ∧ (mergeL envE.workTree envE.source = envE.headTree →
          ((push_to_existing_repo envE m b).repo.map Repo.commits)
            = some envE.commits
          ∧ (existBody envE m b).exn = none)
      ∧ (mergeL envE.workTree envE.source ≠ envE.headTree →
          ((push_to_existing_repo envE m b).repo.map Repo.commits)
            = some (m :: envE.commits)) := by
    refine ⟨?_, ?_, ?_, ?_⟩ <;>
    · simp only [push_to_existing_repo, existBody, h3, h4]
      (repeat' split) <;> simp_all
  exact ⟨hcl.1, hcl.2.1, hcl.2.2.1, hcl.2.2.2,
         hex.1, hex.2.1, hex.2.2.1, hex.2.2.2⟩

/-- Witness for C4: a clone run with a fresh file commits it with the
supplied message; an existing-repository run whose source equals the
checkout reports no changes, commits nothing, and ends cleanly. -/
theorem C4_witness :
    ((clone_and_push_folder_fixed envC4w "msg" "main").events.contains
        Ev.committed) = true
    ∧ ((clone_and_push_folder_fixed envC4w "msg" "main").repoAtEnd.map
        Repo.commits) = some ["msg"]
    ∧ ((push_to_existing_repo envE4w "msg" "main").events.contains
        Ev.noChanges) = true
    ∧ ((push_to_existing_repo envE4w "msg" "main").repo.map Repo.commits)
        = some ["old"]
    ∧ (existBody envE4w "msg" "main").exn = none := by
  have h := C4_commit_iff_changes envC4w envE4w "msg" "main"
    (by decide) (by decide) (by decide) (by decide) (by decide)
  refine ⟨h.1.mpr (by decide), ?_, h.2.2.2.2.2.1.mpr (by decide), ?_, ?_⟩
  · exact h.2.2.2.1 (by decide)
  · exact (h.2.2.2.2.2.2.1 (by decide)).1
  · exact (h.2.2.2.2.2.2.1 (by decide)).2

set_option maxHeartbeats 1600000 in
/-- C6: when the push fails after a commit was created, the clone path
catches it inline (printing the push-failure notice) and the
existing-repository path lets it reach the top-level handler; in both,
the local commit is kept — the new message is still at the head of the
checkout's history, HEAD holds the merged tree, nothing is rolled back
— and no exception escapes to the caller. -/
theorem C6_push_failure_keeps_commit (envC : CloneEnv) (envE : ExistEnv)
    (m b : String)
    (h1 : envC.cloneOk = true)
    (h2 : cfL envC.remoteTree envC.source = true)
    (h3 : mergeL envC.remoteTree envC.source ≠ envC.remoteTree)
    (h4 : envC.pushOk = false)
    (h5 : envE.repoOk = true)
    (h6 : (envE.branches.contains b && envE.checkoutRaises) = false)
    (h7 : cfL envE.workTree envE.source = true)
    (h8 : mergeL envE.workTree envE.source ≠ envE.headTree)
    (h9 : envE.pushOk = false) :
    ((clone_and_push_folder_fixed envC m b).events.contains Ev.pushFailed)
        = true
    ∧ (cloneBody envC m b).exn = none
    ∧ ((clone_and_push_folder_fixed envC m b).repoAtEnd.map Repo.commits)
        = some (m :: envC.remoteCommits)
    ∧ ((clone_and_push_folder_fixed envC m b).repoAtEnd.map Repo.headTree)
        = some (mergeL envC.remoteTree envC.source)
    ∧ (clone_and_push_folder_fixed envC m b).remoteCommits
        = envC.remoteCommits
    ∧ (clone_and_push_folder_fixed envC m b).exnEscaped = false
    ∧ ((push_to_existing_repo envE m b).events.contains Ev.committed)
        = true
    ∧ ((push_to_existing_repo envE m b).events.contains Ev.errorCaught)
        = true
    ∧ ((push_to_existing_repo envE m b).repo.map Repo.commits)
        = some (m :: envE.commits)
    ∧ (push_to_existing_repo envE m b).exnEscaped = false := by
  refine ⟨?_, ?_, ?_, ?_, ?_, rfl, ?_, ?_, ?_, rfl⟩ <;>
  first
  | (rcases selectBranch_snd_cases b envC.checkoutRaises
        { current := envC.clonedCurrent, branches := envC.clonedBranches,
          refs := envC.clonedRefs, headTree := envC.remoteTree,
          workTree := envC.remoteTree, indexTree := envC.remoteTree,
          commits := envC.remoteCommits } with hs | hs | hs | hs <;>
      · simp only [clone_and_push_folder_fixed, cloneBody,
          selectBranch_workTree, selectBranch_headTree,
          selectBranch_indexTree, selectBranch_commits, h1, h2, h4]
        (repeat' split) <;>
          simp_all [selectBranch_workTree, selectBranch_headTree,
            selectBranch_indexTree, selectBranch_commits])
  | (simp only [push_to_existing_repo, existBody, h5, h6, h9]
     (repeat' split) <;> simp_all)

/-- Witness for C6: both operations at concrete failing-push
environments keep the new commit at the head of the history. -/
theorem C6_witness :
    ((clone_and_push_folder_fixed envC6w "msg" "main").events.contains
        Ev.pushFailed) = true
    ∧ ((clone_and_push_folder_fixed envC6w "msg" "main").repoAtEnd.map
        Repo.commits) = some ["msg"]
    ∧ ((push_to_existing_repo envE6w "msg" "main").repo.map Repo.commits)
        = some ["msg"] := by
  have h := C6_push_failure_keeps_commit envC6w envE6w "msg" "main"
    (by decide) (by decide) (by decide) (by decide) (by decide)
    (by decide) (by decide) (by decide) (by decide)
  exact ⟨h.1, h.2.2.1, h.2.2.2.2.2.2.2.2.1⟩

set_option maxHeartbeats 1600000 in
/-- C3: a clone-and-push run that commits and pushes, immediately
repeated with the unchanged source folder, yields exactly one commit in
total: the second run finds the index equal to HEAD (the copy loop is
idempotent), prints the no-changes notice, commits nothing, and leaves
the remote history at the single new message. -/
theorem C3_second_run_is_noop (env : CloneEnv) (m b : String)
    (h1 : env.cloneOk = true)
    (h2 : wfL env.source = true)
    (h3 : cfL env.remoteTree env.source = true)
    (h4 : env.pushOk = true)
    (h5 : mergeL env.remoteTree env.source ≠ env.remoteTree) :
    (clone_and_push_folder_fixed env m b).remoteCommits
        = m :: env.remoteCommits
    ∧ (clone_and_push_folder_fixed (secondRunEnv env m b) m b).remoteCommits
        = m :: env.remoteCommits
    ∧ ((clone_and_push_folder_fixed (secondRunEnv env m b) m b).events.contains
        Ev.committed) = false
    ∧ ((clone_and_push_folder_fixed (secondRunEnv env m b) m b).events.contains
        Ev.noChanges) = true := by
  have hA : (clone_and_push_folder_fixed env m b).remoteTree
        = mergeL env.remoteTree env.source
      ∧ (clone_and_push_folder_fixed env m b).remoteCommits
        = m :: env.remoteCommits := by
    constructor <;>
    · simp only [clone_and_push_folder_fixed, cloneBody,
        selectBranch_workTree, selectBranch_headTree,
        selectBranch_indexTree, selectBranch_commits, h1, h3, h4]
      (repeat' split) <;>
        simp_all [selectBranch_workTree, selectBranch_headTree,
          selectBranch_indexTree, selectBranch_commits]
  have hT : (secondRunEnv env m b).remoteTree
      = mergeL env.remoteTree env.source := by
    simpa [secondRunEnv] using hA.1
  have hC : (secondRunEnv env m b).remoteCommits = m :: env.remoteCommits := by
    simpa [secondRunEnv] using hA.2
  have hOk : (secondRunEnv env m b).cloneOk = true := by
    simpa [secondRunEnv] using h1
  have hSrc : (secondRunEnv env m b).source = env.source := by
    simp [secondRunEnv]
  have hcf2 : cfL (secondRunEnv env m b).remoteTree
      (secondRunEnv env m b).source = true := by
    rw [hT, hSrc]
    exact cfL_pres _ _ h2 h3
  have hidem : mergeL (secondRunEnv env m b).remoteTree
      (secondRunEnv env m b).source = (secondRunEnv env m b).remoteTree := by
    rw [hT, hSrc]
    exact mergeL_idem _ _ h2
  refine ⟨hA.2, ?_, ?_, ?_⟩ <;>
  · rcases selectBranch_snd_cases b (secondRunEnv env m b).checkoutRaises
        { current := (secondRunEnv env m b).clonedCurrent,
          branches := (secondRunEnv env m b).clonedBranches,
          refs := (secondRunEnv env m b).clonedRefs,
          headTree := (secondRunEnv env m b).remoteTree,
          workTree := (secondRunEnv env m b).remoteTree,
          indexTree := (secondRunEnv env m b).remoteTree,
          commits := (secondRunEnv env m b).remoteCommits }
      with hs | hs | hs | hs <;>
    · simp only [clone_and_push_folder_fixed, cloneBody,
        selectBranch_workTree, selectBranch_headTree,
        selectBranch_indexTree, selectBranch_commits, hOk, hcf2, hidem]
      (repeat' split) <;>
        simp_all [selectBranch_workTree, selectBranch_headTree,
          selectBranch_indexTree, selectBranch_commits]

/-- Witness for C3: pushing one file to an empty remote and repeating
the run: one commit total, the second run only reports no changes. -/
theorem C3_witness :
    (clone_and_push_folder_fixed envC3w "msg" "main").remoteCommits
        = ["msg"]
    ∧ (clone_and_push_folder_fixed (secondRunEnv envC3w "msg" "main")
        "msg" "main").remoteCommits = ["msg"]
    ∧ ((clone_and_push_folder_fixed (secondRunEnv envC3w "msg" "main")
        "msg" "main").events.contains Ev.committed) = false
    ∧ ((clone_and_push_folder_fixed (secondRunEnv envC3w "msg" "main")
        "msg" "main").events.contains Ev.noChanges) = true :=
  C3_second_run_is_noop envC3w "msg" "main" (by decide) (by decide)
    (by decide) (by decide) (by decide)

end PushSpec
